import Mathlib

/-!
Verification of the analytics functions of the Cosmic-Financial-Analysis
application against its natural-language specification.

The Python source is embedded shallowly:

* floating-point inputs are modelled as rationals (every Python float is a
  rational number); where the source takes an exact square root of a rational
  (numpy sqrt of the time horizon) the embedding is defined when that square
  root is itself rational, which covers every input the claims are settled at;
* numpy calls that raise (percentile of an empty array, out-of-range
  percentile rank, math.sqrt of a negative, float division by zero inside a
  try block) are modelled with Option/Except;
* numpy/pandas float division that silently produces inf or NaN is modelled
  with explicit extended-value types carrying those points;
* Python percent/fixed-point f-string formatting is modelled by an exact
  round-half-even decimal formatter.
-/

set_option maxHeartbeats 1000000
set_option maxRecDepth 10000

namespace CosmicFin

/-- Arithmetic mean of a list of rationals, as numpy mean computes it
(sum divided by length; on the empty list the source emits NaN with a
warning, a case no claim touches and where rational division yields 0). -/
def listMean (xs : List ℚ) : ℚ := xs.sum / xs.length

/-- numpy percentile with the default linear interpolation: sort the data,
take position q/100*(n-1), and interpolate between the two bracketing order
statistics.  numpy raises on an empty array and on a rank outside [0, 100];
those cases are none. -/
def percentile (xs : List ℚ) (q : ℚ) : Option ℚ :=
  if xs = [] ∨ q < 0 ∨ 100 < q then none
  else
    let s := List.insertionSort (· ≤ ·) xs
    let pos : ℚ := q / 100 * ((xs.length : ℚ) - 1)
    let i : ℕ := (Int.floor pos).toNat
    let frac : ℚ := pos - (i : ℚ)
    let lo := s.getD i 0
    let hi := s.getD (i + 1) lo
    some (lo + frac * (hi - lo))

/-- Exact rational square root: some r with r*r = q when such a nonnegative
rational exists, none otherwise.  It models numpy sqrt at the inputs where
the latter is exact; the embedding of the risk functions is defined at such
horizons (1, 4, 9, ...), which covers every horizon used by the claims. -/
def ratSqrt (q : ℚ) : Option ℚ :=
  if q < 0 then none
  else
    let n := Nat.sqrt q.num.toNat
    let d := Nat.sqrt q.den
    if n * n = q.num.toNat ∧ d * d = q.den then some ((n : ℚ) / (d : ℚ)) else none

/-- src/risk_analysis.py calculate_historical_var: VaR by historical
simulation, -percentile(returns, (1-confidence)*100) * sqrt(horizon). -/
def calculate_historical_var (returns : List ℚ)
    (confidence_level time_horizon : ℚ) : Option ℚ :=
  match percentile returns ((1 - confidence_level) * 100), ratSqrt time_horizon with
  | some v, some s => some (-v * s)
  | _, _ => none

/-- src/risk_analysis.py calculate_cvar: compute the historical VaR, average
the returns at or below -VaR, and return the negation of that average; when
no return lies at or below the threshold the source sets cvar = var and then
returns -cvar, i.e. the negation of the VaR. -/
def calculate_cvar (returns : List ℚ)
    (confidence_level time_horizon : ℚ) : Option ℚ :=
  (calculate_historical_var returns confidence_level time_horizon).map (fun var =>
    let losses := returns.filter (fun x => x ≤ -var)
    if losses.length ≠ 0 then -(listMean losses) else -var)

/-- The ten-element returns fixture named by the specification. -/
def fixture10 : List ℚ :=
  [-(1/20), -(3/100), -(1/100), 1/100, 3/100, 1/20, 1/50, -(1/50), 1/25, -(1/25)]


/-- Python float division inside a try block: raises ZeroDivisionError on a
zero denominator, modelled as an Except error. -/
def divE (a b : ℚ) : Except String ℚ :=
  if b = 0 then Except.error "ZeroDivisionError" else Except.ok (a / b)

@[simp] lemma divE_zero (a : ℚ) : divE a 0 = Except.error "ZeroDivisionError" := by
  simp [divE]

deriving instance DecidableEq for Except

/-- src/equity_analysis.py dcf_valuation, body of the try block: Gordon
terminal value fcf[-1]*(1+g)/(r-g), plus the cash flows discounted at
(1+r)^i for i = 0.., plus the terminal value discounted at (1+r)^len;
an empty list raises IndexError at fcf[-1]. -/
def dcf_valuation_body (free_cash_flow : List ℚ)
    (discount_rate growth_rate : ℚ) : Except String ℚ :=
  match free_cash_flow.getLast? with
  | none => Except.error "IndexError"
  | some last =>
      (divE (last * (1 + growth_rate)) (discount_rate - growth_rate)).bind
        (fun terminal_value =>
          (free_cash_flow.enum.mapM
              (fun ic => divE ic.2 ((1 + discount_rate) ^ ic.1))).bind
            (fun discounted =>
              (divE terminal_value ((1 + discount_rate) ^ free_cash_flow.length)).map
                (fun tv => discounted.sum + tv)))

/-- src/equity_analysis.py dcf_valuation: the try-block value, or 0 when any
exception is raised (the bare except branch returns 0). -/
def dcf_valuation (free_cash_flow : List ℚ) (discount_rate growth_rate : ℚ) : ℚ :=
  match dcf_valuation_body free_cash_flow discount_rate growth_rate with
  | Except.ok v => v
  | Except.error _ => 0

/-- Scalar overload of dcf_valuation: a scalar free cash flow is replicated
across 5 assumed years. -/
def dcf_valuation_scalar (fcf discount_rate growth_rate : ℚ) : ℚ :=
  dcf_valuation (List.replicate 5 fcf) discount_rate growth_rate

/-- src/equity_analysis.py ddm_valuation, body of the try block: the Gordon
growth value dividend*(1+g)/(r-g) for a positive dividend, else 0. -/
def ddm_valuation_body (dividend discount_rate growth_rate : ℚ) : Except String ℚ :=
  if 0 < dividend then
    divE (dividend * (1 + growth_rate)) (discount_rate - growth_rate)
  else Except.ok 0

/-- src/equity_analysis.py ddm_valuation: the try-block value, or 0 when the
division raises (the bare except branch returns 0). -/
def ddm_valuation (dividend discount_rate growth_rate : ℚ) : ℚ :=
  match ddm_valuation_body dividend discount_rate growth_rate with
  | Except.ok v => v
  | Except.error _ => 0

/-- Round half to even (banker's rounding), as Python applies to the scaled
value when formatting a numeric value at a fixed precision. -/
def roundHalfEven (q : ℚ) : ℤ :=
  if q - ⌊q⌋ < 1/2 then ⌊q⌋
  else if (1/2 : ℚ) < q - ⌊q⌋ then ⌊q⌋ + 1
  else if ⌊q⌋ % 2 = 0 then ⌊q⌋ else ⌊q⌋ + 1

/-- Render a sign, a scaled magnitude and a decimal precision as a
fixed-point numeral string. -/
def renderFixed (neg : Bool) (m : ℕ) (prec : ℕ) : String :=
  let ip := m / 10 ^ prec
  let fp := m % 10 ^ prec
  let fps := Nat.repr fp
  let pad := (List.replicate (prec - fps.length) '0').asString
  (if neg then "-" else "") ++ Nat.repr ip ++
    (if prec = 0 then "" else "." ++ pad ++ fps)

/-- Python fixed-point f-string formatting of an exactly rational value. -/
def fmtFixedQ (x : ℚ) (prec : ℕ) : String :=
  renderFixed (decide (x < 0)) (roundHalfEven (x * 10 ^ prec)).natAbs prec

/-- Python percent f-string formatting of an exactly rational value: the
value times 100, fixed-point formatted, with a trailing percent sign. -/
def pctFmtQ (x : ℚ) (prec : ℕ) : String := fmtFixedQ (x * 100) prec ++ "%"

/-- The default scenario dictionary of perform_stress_testing. -/
def default_stress_scenarios : List (String × ℚ) :=
  [("Market Crash (-30%)", -(30/100)),
   ("Severe Recession (-20%)", -(20/100)),
   ("Mild Recession (-10%)", -(10/100)),
   ("Bull Market (+15%)", 15/100)]

/-- src/risk_analysis.py perform_stress_testing: shift every return by each
scenario shock, recompute the historical VaR at the default confidence 0.95
and horizon 1, and map each scenario name to the dictionary of the
percent-formatted shock and percent-formatted VaR strings. -/
def perform_stress_testing (returns : List ℚ)
    (stress_scenarios : List (String × ℚ)) :
    Option (List (String × List (String × String))) :=
  stress_scenarios.mapM (fun sc =>
    (calculate_historical_var (returns.map (fun x => x + sc.2)) (95/100) 1).map
      (fun var_95 =>
        (sc.1, [("Shock", pctFmtQ sc.2 1), ("VaR 95%", pctFmtQ var_95 2)])))

/-- Round half to even over the reals, for formatting values that are not
exactly rational (products with sqrt 252 and the like). -/
noncomputable def roundHalfEvenR (x : ℝ) : ℤ :=
  if x - ⌊x⌋ < 1/2 then ⌊x⌋
  else if (1/2 : ℝ) < x - ⌊x⌋ then ⌊x⌋ + 1
  else if ⌊x⌋ % 2 = 0 then ⌊x⌋ else ⌊x⌋ + 1

/-- Python fixed-point f-string formatting of a real value. -/
noncomputable def fmtFixedR (x : ℝ) (prec : ℕ) : String :=
  renderFixed (if x < 0 then true else false) (roundHalfEvenR (x * 10 ^ prec)).natAbs prec

/-- Python percent f-string formatting of a real value. -/
noncomputable def pctFmtR (x : ℝ) (prec : ℕ) : String := fmtFixedR (x * 100) prec ++ "%"

/-- k-th central moment of a sample, mean of (x - mean)^k. -/
def centralMoment (xs : List ℚ) (k : ℕ) : ℚ :=
  listMean (xs.map (fun x => (x - listMean xs) ^ k))

/-- numpy population standard deviation (ddof 0): square root of the second
central moment. -/
noncomputable def npStd (xs : List ℚ) : ℝ :=
  Real.sqrt ((centralMoment xs 2 : ℚ) : ℝ)

/-- scipy.stats.skew with the default biased estimator: m3 / m2^(3/2). -/
noncomputable def skewR (xs : List ℚ) : ℝ :=
  ((centralMoment xs 3 : ℚ) : ℝ) / Real.sqrt ((centralMoment xs 2 : ℚ) : ℝ) ^ 3

/-- scipy.stats.kurtosis with the defaults (Fisher, biased): m4/m2^2 - 3. -/
def kurtQ (xs : List ℚ) : ℚ := centralMoment xs 4 / centralMoment xs 2 ^ 2 - 3

/-- src/risk_analysis.py calculate_risk_factors: the dictionary of
percent- or fixed-point-formatted strings for annualized volatility, Sharpe
ratio, minimum return (labelled Maximum Drawdown), skewness, kurtosis,
VaR 95 and CVaR 95.  On an empty sample numpy raises (np.min and the VaR
percentile), modelled by none; degenerate interior divisions (zero standard
deviation) produce junk finite values where numpy emits inf/nan, without
affecting the string-shaped facts proved below. -/
noncomputable def calculate_risk_factors (returns : List ℚ) :
    Option (List (String × String)) :=
  match calculate_historical_var returns (95/100) 1,
      calculate_cvar returns (95/100) 1 with
  | some v, some c => some
      [("Annualized Volatility", pctFmtR (npStd returns * Real.sqrt 252) 2),
       ("Sharpe Ratio",
         fmtFixedR (((listMean returns : ℚ) : ℝ) / npStd returns * Real.sqrt 252) 2),
       ("Maximum Drawdown", pctFmtQ (returns.min?.getD 0) 2),
       ("Skewness", fmtFixedR (skewR returns) 2),
       ("Kurtosis", fmtFixedQ (kurtQ returns) 2),
       ("VaR 95%", pctFmtQ v 2),
       ("CVaR 95%", pctFmtQ c 2)]
  | _, _ => none


/-- Extended pandas/numpy float value: NaN, signed infinity, or a finite
rational. -/
inductive PVal where
  | nan : PVal
  | pinf : PVal
  | ninf : PVal
  | fin (q : ℚ) : PVal
deriving DecidableEq, Repr

/-- IEEE addition on extended values, as pandas element-wise addition
behaves. -/
def PVal.padd : PVal → PVal → PVal
  | nan, _ => nan
  | _, nan => nan
  | pinf, ninf => nan
  | ninf, pinf => nan
  | pinf, _ => pinf
  | _, pinf => pinf
  | ninf, _ => ninf
  | _, ninf => ninf
  | fin a, fin b => fin (a + b)

/-- IEEE negation on extended values. -/
def PVal.pneg : PVal → PVal
  | nan => nan
  | pinf => ninf
  | ninf => pinf
  | fin q => fin (-q)

/-- IEEE subtraction on extended values. -/
def PVal.psub (a b : PVal) : PVal := a.padd b.pneg

/-- IEEE division on extended values: pandas/numpy yield signed infinity
for x/0 with x nonzero and NaN for 0/0, emitting a warning but not
raising. -/
def PVal.pdiv : PVal → PVal → PVal
  | nan, _ => nan
  | _, nan => nan
  | pinf, pinf => nan
  | pinf, ninf => nan
  | ninf, pinf => nan
  | ninf, ninf => nan
  | pinf, fin b => if b < 0 then ninf else pinf
  | ninf, fin b => if b < 0 then pinf else ninf
  | fin _, pinf => fin 0
  | fin _, ninf => fin 0
  | fin a, fin b =>
      if b = 0 then (if 0 < a then pinf else if a < 0 then ninf else nan)
      else fin (a / b)

/-- pandas Series.diff of the close prices: NaN (none) at the head,
consecutive differences afterwards. -/
def diffCloses (closes : List ℚ) : List (Option ℚ) :=
  match closes with
  | [] => []
  | _ :: t => none :: List.zipWith (fun prev next => some (next - prev)) closes t

/-- delta.where(delta > 0, 0): the gains series; the head NaN fails the
condition and is replaced by 0, as pandas where does. -/
def gainSeries (closes : List ℚ) : List ℚ :=
  (diffCloses closes).map (fun d => match d with
    | none => 0
    | some v => if 0 < v then v else 0)

/-- -delta.where(delta < 0, 0): the losses series. -/
def lossSeries (closes : List ℚ) : List ℚ :=
  (diffCloses closes).map (fun d => match d with
    | none => 0
    | some v => if v < 0 then -v else 0)

/-- pandas rolling(window).mean() with the default min_periods: the mean of
the trailing window once it is full, NaN (none) before that. -/
def rollingMean (window : ℕ) (xs : List ℚ) : List (Option ℚ) :=
  (List.range xs.length).map (fun i =>
    if 1 ≤ window ∧ window ≤ i + 1 then
      some (((xs.take (i + 1)).drop (i + 1 - window)).sum / window)
    else none)

/-- src/technical_analysis.py calculate_rsi on the close prices:
rs = rolling mean of gains / rolling mean of losses and
rsi = 100 - 100/(1 + rs), with pandas NaN/infinity arithmetic. -/
def calculate_rsi (closes : List ℚ) (period : ℕ) : List PVal :=
  List.zipWith (fun g l =>
      let rs := match g, l with
        | some gv, some lv => PVal.pdiv (PVal.fin gv) (PVal.fin lv)
        | _, _ => PVal.nan
      PVal.psub (PVal.fin 100) (PVal.pdiv (PVal.fin 100) (PVal.padd (PVal.fin 1) rs)))
    (rollingMean period (gainSeries closes))
    (rollingMean period (lossSeries closes))


/-- Standard normal probability density. -/
noncomputable def normPdf (x : ℝ) : ℝ :=
  (Real.sqrt (2 * Real.pi))⁻¹ * Real.exp (-(x ^ 2) / 2)

/-- Standard normal cumulative distribution function (scipy norm.cdf): the
integral of the density over (-infinity, x]. -/
noncomputable def normCdf (x : ℝ) : ℝ := ∫ t in Set.Iic x, normPdf t

/-- Option Greeks bundle returned by calculate_greeks. -/
structure Greeks where
  delta : ℝ
  gamma : ℝ
  theta : ℝ
  vega : ℝ
  rho : ℝ

/-- The zero-filled Greeks bundle returned by the except branch. -/
noncomputable def zeroGreeks : Greeks := ⟨0, 0, 0, 0, 0⟩

/-- src/derivatives.py calculate_greeks, body of the try block: Black-Scholes
d1, d2 and the call Greeks.  The guards mark exactly the inputs where the
Python body raises: math.sqrt of a negative time to expiry, division by a
zero strike, math.log of a non-positive ratio, and the division by zero in
d1 when volatility * sqrt(tte) = 0. -/
noncomputable def calculate_greeks_body
    (stock_price strike time_to_expiry volatility risk_free_rate : ℝ) :
    Option Greeks :=
  if time_to_expiry < 0 then none
  else if strike = 0 then none
  else if stock_price / strike ≤ 0 then none
  else if volatility * Real.sqrt time_to_expiry = 0 then none
  else
    let sq := Real.sqrt time_to_expiry
    let d1 := (Real.log (stock_price / strike) +
        (risk_free_rate + volatility ^ 2 / 2) * time_to_expiry) / (volatility * sq)
    let d2 := d1 - volatility * sq
    some ⟨normCdf d1,
      normPdf d1 / (stock_price * volatility * sq),
      -stock_price * normPdf d1 * volatility / (2 * sq) -
        risk_free_rate * strike * Real.exp (-risk_free_rate * time_to_expiry) * normCdf d2,
      stock_price * sq * normPdf d1 * (1 / 100),
      strike * time_to_expiry * Real.exp (-risk_free_rate * time_to_expiry) *
        normCdf d2 * (1 / 100)⟩

/-- src/derivatives.py calculate_greeks: the try-block Greeks, or the
zero-filled bundle when an exception is raised; the option_price argument is
accepted but never used by the body. -/
noncomputable def calculate_greeks
    (option_price stock_price strike time_to_expiry volatility risk_free_rate : ℝ) :
    Greeks :=
  (calculate_greeks_body stock_price strike time_to_expiry volatility
    risk_free_rate).getD zeroGreeks

/-- Extended numpy float value over the reals: NaN, signed infinity, or a
finite real. -/
inductive RVal where
  | nan : RVal
  | pinf : RVal
  | ninf : RVal
  | fin (x : ℝ) : RVal

/-- numpy square root of a rational float: NaN on negative input (warning,
no exception), the real square root otherwise. -/
noncomputable def npSqrt (q : ℚ) : RVal :=
  if q < 0 then RVal.nan else RVal.fin (Real.sqrt ((q : ℚ) : ℝ))

/-- numpy division of a finite value by an extended value: x/0 is signed
infinity, 0/0 is NaN (warning, no exception), x/infinity is 0, NaN
propagates. -/
noncomputable def npDivFin (a : ℝ) : RVal → RVal
  | RVal.nan => RVal.nan
  | RVal.pinf => RVal.fin 0
  | RVal.ninf => RVal.fin 0
  | RVal.fin b =>
      if b = 0 then
        (if 0 < a then RVal.pinf else if a < 0 then RVal.ninf else RVal.nan)
      else RVal.fin (a / b)

/-- pandas sample covariance (ddof 1) of two aligned return columns. -/
def covQ (xs ys : List ℚ) : ℚ :=
  let ps := xs.zip ys
  let mx := listMean (ps.map Prod.fst)
  let my := listMean (ps.map Prod.snd)
  (ps.map (fun p => (p.1 - mx) * (p.2 - my))).sum / ((ps.length : ℚ) - 1)

/-- The fixed risk-free rate used by calculate_portfolio_metrics (6.5
percent for India). -/
def risk_free_rate : ℚ := 13/200

/-- Annualized portfolio return of calculate_portfolio_metrics:
np.sum(returns.mean() * weights) * 252, with the returns given as a list of
per-asset columns. -/
def portfolio_return (cols : List (List ℚ)) (weights : List ℚ) : ℚ :=
  ((cols.zip weights).map (fun cw => listMean cw.1 * cw.2)).sum * 252

/-- Annualized portfolio variance w^T (252 Cov) w: the quantity whose square
root the source takes as the portfolio volatility. -/
def portfolio_variance (cols : List (List ℚ)) (weights : List ℚ) : ℚ :=
  ((cols.zip weights).map (fun ci =>
    ((cols.zip weights).map (fun cj =>
      ci.2 * cj.2 * (252 * covQ ci.1 cj.1))).sum)).sum

/-- src/portfolio_analysis.py calculate_portfolio_metrics: the dictionary of
annualized expected return, volatility sqrt(w^T (252 Cov) w) and Sharpe
ratio (return - risk_free_rate) / volatility, the division performed with
numpy float semantics. -/
noncomputable def calculate_portfolio_metrics
    (cols : List (List ℚ)) (weights : List ℚ) : List (String × RVal) :=
  [("expected_return", RVal.fin ((portfolio_return cols weights : ℚ) : ℝ)),
   ("volatility", npSqrt (portfolio_variance cols weights)),
   ("sharpe_ratio",
     npDivFin (((portfolio_return cols weights - risk_free_rate : ℚ) : ℝ))
       (npSqrt (portfolio_variance cols weights)))]


/-- The mean of a nonempty list is at most any common upper bound of its
elements. -/
lemma listMean_le_of_forall_le {l : List ℚ} {b : ℚ} (hne : l ≠ [])
    (hle : ∀ x ∈ l, x ≤ b) : listMean l ≤ b := by
  have hlen : 0 < (l.length : ℚ) := by
    exact_mod_cast List.length_pos.mpr hne
  rw [listMean, div_le_iff₀ hlen]
  calc l.sum ≤ l.length • b := List.sum_le_card_nsmul l b hle
    _ = (l.length : ℚ) * b := nsmul_eq_mul _ _
    _ = b * l.length := mul_comm _ _

/-- C10: on the empty returns sequence, calculate_historical_var has no
numeric result (numpy percentile raises), and therefore calculate_cvar,
which computes the historical VaR first, has none either, at every
confidence level and horizon. -/
theorem empty_returns_var_and_cvar_fail :
    ∀ (cl h : ℚ),
      calculate_historical_var [] cl h = none ∧ calculate_cvar [] cl h = none := by
  intro cl h
  have hp : percentile [] ((1 - cl) * 100) = none := by
    unfold percentile
    simp
  have hvar : calculate_historical_var [] cl h = none := by
    unfold calculate_historical_var
    rw [hp]
  refine ⟨hvar, ?_⟩
  unfold calculate_cvar
  rw [hvar]
  rfl

/-- C1 (evaluation at the failing input): on the returns sample
[-0.05, 0.01, 0.02] at confidence 0.95 and horizon 4 the historical VaR is
0.088, no return lies at or below -0.088, and calculate_cvar returns
-0.088, the negation of the VaR, where the specification says the fallback
returns the VaR itself. -/
theorem cvar_fallback_negates_var_eval :
    calculate_historical_var [-(1/20), 1/100, 1/50] (95/100) 4 = some (11/125) ∧
    ([-(1/20), 1/100, 1/50] : List ℚ).filter (fun x => x ≤ -(11/125)) = [] ∧
    calculate_cvar [-(1/20), 1/100, 1/50] (95/100) 4 = some (-(11/125)) := by
  with_unfolding_all decide

/-- C5 (counterexample): a non-degenerate returns sample (nonempty, with two
distinct elements) on which calculate_cvar is strictly below
calculate_historical_var at the same confidence level 0.95 and horizon 4:
the tail beyond the threshold is empty and the fallback returns the negated
VaR. -/
theorem cvar_lt_var_counterexample :
    ((-(3/50) : ℚ) ∈ ([-(3/50), 1/100, 3/100] : List ℚ) ∧
      ((1/100) : ℚ) ∈ ([-(3/50), 1/100, 3/100] : List ℚ) ∧
      (-(3/50) : ℚ) ≠ 1/100) ∧
    calculate_historical_var [-(3/50), 1/100, 3/100] (95/100) 4 = some (53/500) ∧
    calculate_cvar [-(3/50), 1/100, 3/100] (95/100) 4 = some (-(53/500)) ∧
    (-(53/500) : ℚ) < 53/500 := by
  with_unfolding_all decide

/-- C5 (amended): whenever the historical VaR is defined and at least one
return lies at or below the negated VaR threshold (which always holds at
horizon 1), calculate_cvar is defined and is at least the historical VaR. -/
theorem cvar_ge_var_of_tail_nonempty (returns : List ℚ) (cl h v : ℚ)
    (hv : calculate_historical_var returns cl h = some v)
    (hne : returns.filter (fun x => x ≤ -v) ≠ []) :
    ∃ c, calculate_cvar returns cl h = some c ∧ v ≤ c := by
  have hlen : (returns.filter (fun x => x ≤ -v)).length ≠ 0 := by
    simpa [List.length_eq_zero] using hne
  refine ⟨-(listMean (returns.filter (fun x => x ≤ -v))), ?_, ?_⟩
  · unfold calculate_cvar
    rw [hv]
    simp only [Option.map_some', if_pos hlen]
  · have hmean : listMean (returns.filter (fun x => x ≤ -v)) ≤ -v := by
      refine listMean_le_of_forall_le hne ?_
      intro x hx
      have := List.mem_filter.mp hx
      exact of_decide_eq_true this.2
    linarith

/-- C5 (witness for the amended theorem): on the spec fixture at confidence
0.95 and horizon 1 the tail is nonempty and CVaR is at least VaR. -/
theorem cvar_ge_var_witness :
    ∃ c, calculate_cvar fixture10 (95/100) 1 = some c ∧ (91/2000 : ℚ) ≤ c :=
  cvar_ge_var_of_tail_nonempty fixture10 (95/100) 1 (91/2000)
    (by with_unfolding_all decide) (by with_unfolding_all decide)

/-- C6: calculate_historical_var returns the negated interpolated percentile
at rank (1-confidence)*100 scaled by the square root of the horizon; on the
ten-element spec fixture at confidence 0.95 and horizon 1 the percentile at
rank 5 is -0.0455 and the VaR is 0.0455. -/
theorem historical_var_formula :
    (∀ (returns : List ℚ) (cl h p s : ℚ),
        percentile returns ((1 - cl) * 100) = some p → ratSqrt h = some s →
        calculate_historical_var returns cl h = some (-p * s)) ∧
    percentile fixture10 5 = some (-(91/2000)) ∧
    calculate_historical_var fixture10 (95/100) 1 = some (91/2000) := by
  refine ⟨?_, ?_, ?_⟩
  · intro returns cl h p s hp hs
    unfold calculate_historical_var
    rw [hp, hs]
  · with_unfolding_all decide
  · with_unfolding_all decide

/-- C6 (witness): the general formula applied to the spec fixture at
confidence 0.95 and horizon 1. -/
theorem historical_var_formula_witness :
    calculate_historical_var fixture10 (95/100) 1 = some (-(-(91/2000)) * 1) :=
  historical_var_formula.1 fixture10 (95/100) 1 (-(91/2000)) 1
    (by with_unfolding_all decide) (by with_unfolding_all decide)


/-- C3 (counterexample): with discount_rate = growth_rate both valuations
return the number 0 (the ZeroDivisionError is swallowed by the bare except),
and with discount_rate < growth_rate ddm_valuation returns the negative
number -110/7; no error is signalled in either case, where the claim says
both functions raise rather than return a numeric value. -/
theorem dcf_ddm_never_signal_counterexample :
    dcf_valuation [1, 1, 1, 1, 1] (1/10) (1/10) = 0 ∧
    dcf_valuation_body [1, 1, 1, 1, 1] (1/10) (1/10) =
      Except.error "ZeroDivisionError" ∧
    ddm_valuation 1 (1/10) (1/10) = 0 ∧
    ddm_valuation 1 (3/100) (1/10) = -(110/7) ∧
    dcf_valuation [1, 1, 1, 1, 1] 0 (9/10) = 26/9 := by
  with_unfolding_all decide

/-- A mapM of guarded divisions by nonzero powers of 1+r succeeds and equals
the plain map of the quotients. -/
lemma mapM_divE_pow_ok (l : List (ℕ × ℚ)) (r : ℚ) (h : (1 + r) ≠ 0) :
    l.mapM (fun ic => divE ic.2 ((1 + r) ^ ic.1)) =
      Except.ok (l.map (fun ic => ic.2 / (1 + r) ^ ic.1)) := by
  induction l with
  | nil => rfl
  | cons x xs ih =>
      rw [List.mapM_cons, ih]
      simp only [divE, if_neg (pow_ne_zero x.1 h)]
      rfl

/-- C3 (amended): when discount_rate = growth_rate the division by zero is
raised inside the try block and swallowed, so dcf_valuation and
ddm_valuation both return the number 0.  When discount_rate is different
from growth_rate (in particular when discount_rate < growth_rate) no
exception occurs and numeric values are returned instead of an error:
ddm_valuation returns the Gordon value dividend*(1+g)/(r-g) for a positive
dividend, and dcf_valuation returns the full DCF sum - the discounted cash
flows plus the discounted Gordon terminal value - for a nonempty cash-flow
list with discount_rate distinct from -1. -/
theorem dcf_ddm_return_numbers :
    (∀ (fcf : List ℚ) (d r g : ℚ), r = g →
        dcf_valuation fcf r g = 0 ∧ ddm_valuation d r g = 0) ∧
    (∀ d r g : ℚ, 0 < d → r ≠ g →
        ddm_valuation d r g = d * (1 + g) / (r - g)) ∧
    (∀ (fcf : List ℚ) (last r g : ℚ), fcf.getLast? = some last → r ≠ g →
        (1 + r) ≠ 0 →
        dcf_valuation fcf r g =
          (fcf.enum.map (fun ic => ic.2 / (1 + r) ^ ic.1)).sum +
            last * (1 + g) / (r - g) / (1 + r) ^ fcf.length) := by
  refine ⟨?_, ?_, ?_⟩
  · intro fcf d r g hrg
    subst hrg
    constructor
    · have hb : dcf_valuation_body fcf r r = Except.error "IndexError" ∨
          dcf_valuation_body fcf r r = Except.error "ZeroDivisionError" := by
        unfold dcf_valuation_body
        cases hgl : fcf.getLast? with
        | none => exact Or.inl rfl
        | some last =>
            right
            simp only [sub_self, divE_zero]
            rfl
      unfold dcf_valuation
      rcases hb with hb | hb <;> rw [hb]
    · by_cases hd : 0 < d <;>
        simp [ddm_valuation, ddm_valuation_body, sub_self, divE_zero, hd]
  · intro d r g hd hne
    have hsub : r - g ≠ 0 := sub_ne_zero.mpr hne
    simp [ddm_valuation, ddm_valuation_body, divE, hd, hsub]
  · intro fcf last r g hlast hne h1r
    have hsub : r - g ≠ 0 := sub_ne_zero.mpr hne
    have hbody : dcf_valuation_body fcf r g = Except.ok
        ((fcf.enum.map (fun ic => ic.2 / (1 + r) ^ ic.1)).sum +
          last * (1 + g) / (r - g) / (1 + r) ^ fcf.length) := by
      unfold dcf_valuation_body
      rw [hlast]
      simp only [mapM_divE_pow_ok fcf.enum r h1r]
      simp only [divE, if_neg hsub, if_neg (pow_ne_zero fcf.length h1r)]
      rfl
    unfold dcf_valuation
    rw [hbody]

/-- C3 (witness for the amended theorem): concrete instances of all three
parts. -/
theorem dcf_ddm_return_numbers_witness :
    dcf_valuation [2] (1/2) (1/2) = 0 ∧ ddm_valuation 3 (1/2) (1/2) = 0 ∧
    ddm_valuation 1 (1/5) (1/10) = 1 * (1 + 1/10) / (1/5 - 1/10) ∧
    dcf_valuation [1, 1, 1, 1, 1] 0 (9/10) = 26/9 :=
  ⟨(dcf_ddm_return_numbers.1 [2] 3 (1/2) (1/2) rfl).1,
   (dcf_ddm_return_numbers.1 [2] 3 (1/2) (1/2) rfl).2,
   dcf_ddm_return_numbers.2.1 1 (1/5) (1/10) (by norm_num) (by norm_num),
   by
     have h := dcf_ddm_return_numbers.2.2 [1, 1, 1, 1, 1] 1 0 (9/10)
       (by with_unfolding_all decide) (by norm_num) (by norm_num)
     rw [h]
     with_unfolding_all decide⟩

/-- Membership in the successful result of an Option-valued mapM comes from
some element of the input list. -/
lemma exists_of_mapM_option {α β : Type} (f : α → Option β) :
    ∀ (l : List α) (out : List β), l.mapM f = some out →
      ∀ b ∈ out, ∃ a ∈ l, f a = some b := by
  intro l
  induction l with
  | nil =>
      intro out h b hb
      simp only [List.mapM_nil] at h
      cases h
      simp at hb
  | cons x xs ih =>
      intro out h b hb
      rw [List.mapM_cons] at h
      cases hx : f x with
      | none => rw [hx] at h; simp at h
      | some y =>
          rw [hx] at h
          cases hxs : xs.mapM f with
          | none => rw [hxs] at h; simp at h
          | some ys =>
              rw [hxs] at h
              have h2 : y :: ys = out := by simpa using h
              subst h2
              rcases List.mem_cons.mp hb with hb | hb
              · exact ⟨x, List.mem_cons_self x xs, by rw [hx, hb]⟩
              · obtain ⟨a, ha, hfa⟩ := ih ys hxs b hb
                exact ⟨a, List.mem_cons_of_mem x ha, hfa⟩

/-- For a nonempty returns list, the historical VaR and the CVaR at the
default confidence 0.95 and horizon 1 are both defined. -/
lemma var_cvar_defined_of_nonempty (returns : List ℚ) (hne : returns ≠ []) :
    ∃ v c, calculate_historical_var returns (95/100) 1 = some v ∧
      calculate_cvar returns (95/100) 1 = some c := by
  have hq : ((1 - 95/100 : ℚ) * 100) = 5 := by norm_num
  have hp : ∃ p, percentile returns 5 = some p := by
    unfold percentile
    rw [if_neg]
    · exact ⟨_, rfl⟩
    · push_neg
      exact ⟨hne, by norm_num, by norm_num⟩
  obtain ⟨p, hp⟩ := hp
  have hs : ratSqrt 1 = some 1 := by with_unfolding_all decide
  have hv : calculate_historical_var returns (95/100) 1 = some (-p * 1) := by
    unfold calculate_historical_var
    rw [hq, hp, hs]
  have hcv : calculate_cvar returns (95/100) 1 =
      some (if (returns.filter (fun x => x ≤ -(-p * 1))).length ≠ 0 then
              -(listMean (returns.filter (fun x => x ≤ -(-p * 1))))
            else -(-p * 1)) := by
    unfold calculate_cvar
    rw [hv]
    rfl
  exact ⟨-p * 1, _, hv, hcv⟩

/-- C2 (counterexample): on the spec fixture with the default scenarios, the
first per-scenario bundle of perform_stress_testing maps the metric name
Shock to the percentage-formatted string -30.0 percent — a string ending in
the percent sign, not a numeric value. -/
theorem stress_output_is_percent_string_counterexample :
    (((perform_stress_testing fixture10 default_stress_scenarios).getD []).headD
        ("", [])).2.headD ("", "") = ("Shock", "-30.0%") ∧
    String.endsWith
      ((((perform_stress_testing fixture10 default_stress_scenarios).getD []).headD
          ("", [])).2.headD ("", "")).2 "%" = true := by
  with_unfolding_all decide

/-- C2 (amended): the per-scenario results of perform_stress_testing map
every metric name to a percent-formatted string (a string carrying a
trailing percent sign), and the risk-factor bundle of
calculate_risk_factors maps its seven metric names to formatted strings,
percent-suffixed for the percentage-valued metrics — not to numeric
scalars in fractional form. -/
theorem analytics_bundles_are_formatted_strings :
    (∀ (returns : List ℚ) (scens : List (String × ℚ))
        (out : List (String × List (String × String))),
        perform_stress_testing returns scens = some out →
        ∀ e ∈ out, ∀ kv ∈ e.2, ∃ s, kv.2 = s ++ "%") ∧
    (∀ (returns : List ℚ), returns ≠ [] →
        ∃ vol sh dd sk ku va cv, calculate_risk_factors returns = some
          [("Annualized Volatility", vol ++ "%"), ("Sharpe Ratio", sh),
           ("Maximum Drawdown", dd ++ "%"), ("Skewness", sk),
           ("Kurtosis", ku), ("VaR 95%", va ++ "%"), ("CVaR 95%", cv ++ "%")]) := by
  constructor
  · intro returns scens out hout e he kv hkv
    obtain ⟨sc, _hsc, hfe⟩ :=
      exists_of_mapM_option _ scens out hout e he
    cases hv : calculate_historical_var (returns.map (fun x => x + sc.2)) (95/100) 1 with
    | none => rw [hv] at hfe; simp at hfe
    | some v =>
        rw [hv] at hfe
        simp only [Option.map_some', Option.some_inj] at hfe
        subst hfe
        simp only [List.mem_cons, List.not_mem_nil, or_false] at hkv
        rcases hkv with h | h <;> subst h <;> exact ⟨_, rfl⟩
  · intro returns hne
    obtain ⟨v, c, hv, hc⟩ := var_cvar_defined_of_nonempty returns hne
    have heq : calculate_risk_factors returns = some
        [("Annualized Volatility",
            fmtFixedR (npStd returns * Real.sqrt 252 * 100) 2 ++ "%"),
         ("Sharpe Ratio",
            fmtFixedR (((listMean returns : ℚ) : ℝ) / npStd returns * Real.sqrt 252) 2),
         ("Maximum Drawdown", fmtFixedQ ((returns.min?.getD 0) * 100) 2 ++ "%"),
         ("Skewness", fmtFixedR (skewR returns) 2),
         ("Kurtosis", fmtFixedQ (kurtQ returns) 2),
         ("VaR 95%", fmtFixedQ (v * 100) 2 ++ "%"),
         ("CVaR 95%", fmtFixedQ (c * 100) 2 ++ "%")] := by
      unfold calculate_risk_factors
      rw [hv, hc]
      rfl
    exact ⟨_, _, _, _, _, _, _, heq⟩

/-- C2 (witness for the amended theorem): a concrete stress-test value and
the concrete risk-factor bundle shape on the spec fixture. -/
theorem analytics_bundles_witness :
    (∃ s, (("Shock", "0.0%") : String × String).2 = s ++ "%") ∧
    (∃ vol sh dd sk ku va cv, calculate_risk_factors fixture10 = some
      [("Annualized Volatility", vol ++ "%"), ("Sharpe Ratio", sh),
       ("Maximum Drawdown", dd ++ "%"), ("Skewness", sk),
       ("Kurtosis", ku), ("VaR 95%", va ++ "%"), ("CVaR 95%", cv ++ "%")]) :=
  ⟨analytics_bundles_are_formatted_strings.1 [0] [("S", 0)]
      [("S", [("Shock", "0.0%"), ("VaR 95%", "0.00%")])]
      (by with_unfolding_all decide)
      ("S", [("Shock", "0.0%"), ("VaR 95%", "0.00%")]) (by simp)
      ("Shock", "0.0%") (by simp),
   analytics_bundles_are_formatted_strings.2 fixture10 (by with_unfolding_all decide)⟩

lemma diffCloses_length (closes : List ℚ) :
    (diffCloses closes).length = closes.length := by
  cases closes with
  | nil => rfl
  | cons c t => simp [diffCloses]

lemma gainSeries_length (closes : List ℚ) :
    (gainSeries closes).length = closes.length := by
  simp [gainSeries, diffCloses_length]

lemma lossSeries_length (closes : List ℚ) :
    (lossSeries closes).length = closes.length := by
  simp [lossSeries, diffCloses_length]

lemma rollingMean_length (w : ℕ) (xs : List ℚ) :
    (rollingMean w xs).length = xs.length := by
  simp [rollingMean]

lemma rollingMean_getD (w : ℕ) (xs : List ℚ) (i : ℕ) (h : i < xs.length) :
    (rollingMean w xs).getD i none =
      if 1 ≤ w ∧ w ≤ i + 1 then
        some (((xs.take (i + 1)).drop (i + 1 - w)).sum / w)
      else none := by
  have hlen : i < (rollingMean w xs).length := by rw [rollingMean_length]; exact h
  rw [List.getD_eq_getElem _ _ hlen]
  simp only [rollingMean, List.getElem_map, List.getElem_range]

lemma diff_some_pos : ∀ (closes : List ℚ), List.Chain' (· < ·) closes →
    ∀ v : ℚ, some v ∈ diffCloses closes → 0 < v := by
  intro closes
  induction closes with
  | nil => intro _ v hv; simp [diffCloses] at hv
  | cons c1 rest ih =>
      intro hmono v hv
      cases rest with
      | nil => simp [diffCloses] at hv
      | cons c2 rest2 =>
          simp only [diffCloses, List.zipWith_cons_cons, List.mem_cons] at hv
          rcases hv with h | h | h
          · exact absurd h (by simp)
          · have hlt : c1 < c2 := (List.chain'_cons.mp hmono).1
            have : v = c2 - c1 := by injection h
            subst this
            linarith
          · have hmono2 : List.Chain' (· < ·) (c2 :: rest2) :=
              (List.chain'_cons.mp hmono).2
            apply ih hmono2 v
            simp only [diffCloses, List.mem_cons]
            exact Or.inr h

lemma lossSeries_all_zero (closes : List ℚ) (hmono : List.Chain' (· < ·) closes) :
    ∀ x ∈ lossSeries closes, x = 0 := by
  intro x hx
  simp only [lossSeries, List.mem_map] at hx
  obtain ⟨d, hd, rfl⟩ := hx
  cases d with
  | none => rfl
  | some v =>
      have hv := diff_some_pos closes hmono v hd
      simp [not_lt.mpr hv.le]

lemma gainSeries_nonneg (closes : List ℚ) : ∀ x ∈ gainSeries closes, 0 ≤ x := by
  intro x hx
  simp only [gainSeries, List.mem_map] at hx
  obtain ⟨d, _, rfl⟩ := hx
  cases d with
  | none => exact le_refl 0
  | some v =>
      dsimp only
      split
      · linarith
      · exact le_refl 0

lemma gainSeries_getD_pos (closes : List ℚ) (hmono : List.Chain' (· < ·) closes)
    (i : ℕ) (h1 : 1 ≤ i) (h2 : i < closes.length) :
    0 < (gainSeries closes).getD i 0 := by
  have hlen : i < (gainSeries closes).length := by rw [gainSeries_length]; exact h2
  rw [List.getD_eq_getElem _ _ hlen]
  cases closes with
  | nil => simp at h2
  | cons c t =>
      obtain ⟨j, rfl⟩ : ∃ j, i = j + 1 := ⟨i - 1, by omega⟩
      have hj : j + 1 < (c :: t).length := h2
      have hjt : j < t.length := by simp at hj; omega
      have hjc : j < (c :: t).length := by simp; omega
      simp only [gainSeries, diffCloses, List.getElem_map, List.getElem_cons_succ,
        List.getElem_zipWith]
      have hchain : (c :: t)[j] < (c :: t)[j + 1] := by
        have hh := List.chain'_iff_get.mp hmono j (by simp at hj ⊢; omega)
        simpa [List.get_eq_getElem] using hh
      have htj : t[j] = (c :: t)[j + 1] := by
        simp
      have hlt2 : (c :: t)[j] < t[j] := by
        rw [htj]
        exact hchain
      simp [sub_pos, hlt2]



/-- C8: strictly increasing closes saturate the RSI at 100. -/
theorem rsi_saturates_at_100 (closes : List ℚ) (period i : ℕ)
    (hmono : List.Chain' (· < ·) closes)
    (hp : 1 ≤ period) (hi1 : 1 ≤ i) (hiw : period - 1 ≤ i)
    (hlen : i < closes.length) :
    (rollingMean period (lossSeries closes)).getD i none = some 0 ∧
    (calculate_rsi closes period).getD i PVal.nan = PVal.fin 100 := by
  have hwin : 1 ≤ period ∧ period ≤ i + 1 := ⟨hp, by omega⟩
  have hlossD : (rollingMean period (lossSeries closes)).getD i none = some 0 := by
    rw [rollingMean_getD _ _ _ (by rw [lossSeries_length]; exact hlen), if_pos hwin]
    have hz : ∀ x ∈ ((lossSeries closes).take (i + 1)).drop (i + 1 - period), x = 0 := by
      intro x hx
      exact lossSeries_all_zero closes hmono x
        (List.mem_of_mem_take (List.mem_of_mem_drop hx))
    rw [List.sum_eq_zero hz, zero_div]
  have hlen_g : i < (gainSeries closes).length := by rw [gainSeries_length]; exact hlen
  have hglen : (((gainSeries closes).take (i + 1)).drop (i + 1 - period)).length
      = period := by
    simp only [List.length_drop, List.length_take]
    omega
  have hmem : (gainSeries closes)[i] ∈
      ((gainSeries closes).take (i + 1)).drop (i + 1 - period) := by
    have hk : period - 1 < (((gainSeries closes).take (i + 1)).drop
        (i + 1 - period)).length := by omega
    have hidx : (((gainSeries closes).take (i + 1)).drop (i + 1 - period))[period - 1] =
        (gainSeries closes)[i] := by
      rw [List.getElem_drop, List.getElem_take]
      congr 1
      omega
    rw [← hidx]
    exact List.getElem_mem hk
  have hpos : 0 < (gainSeries closes)[i] := by
    have := gainSeries_getD_pos closes hmono i hi1 hlen
    rwa [List.getD_eq_getElem _ _ hlen_g] at this
  have hsum : 0 < (((gainSeries closes).take (i + 1)).drop (i + 1 - period)).sum := by
    calc 0 < (gainSeries closes)[i] := hpos
      _ ≤ (((gainSeries closes).take (i + 1)).drop (i + 1 - period)).sum := by
          refine List.single_le_sum ?_ _ hmem
          intro x hx
          exact gainSeries_nonneg closes x
            (List.mem_of_mem_take (List.mem_of_mem_drop hx))
  have hperiodQ : (0 : ℚ) < period := by exact_mod_cast hp
  have hgmean : 0 < (((gainSeries closes).take (i + 1)).drop (i + 1 - period)).sum
      / (period : ℚ) := div_pos hsum hperiodQ
  have hgainD : (rollingMean period (gainSeries closes)).getD i none =
      some ((((gainSeries closes).take (i + 1)).drop (i + 1 - period)).sum
        / (period : ℚ)) := by
    rw [rollingMean_getD _ _ _ (by rw [gainSeries_length]; exact hlen), if_pos hwin]
  refine ⟨hlossD, ?_⟩
  have hZlen : i < (calculate_rsi closes period).length := by
    simp only [calculate_rsi, List.length_zipWith, rollingMean_length,
      gainSeries_length, lossSeries_length, min_self]
    exact hlen
  have hAlen : i < (rollingMean period (gainSeries closes)).length := by
    rw [rollingMean_length, gainSeries_length]; exact hlen
  have hBlen : i < (rollingMean period (lossSeries closes)).length := by
    rw [rollingMean_length, lossSeries_length]; exact hlen
  rw [List.getD_eq_getElem _ _ hZlen]
  have hA : (rollingMean period (gainSeries closes))[i] =
      some ((((gainSeries closes).take (i + 1)).drop (i + 1 - period)).sum
        / (period : ℚ)) := by
    rw [← List.getD_eq_getElem _ none hAlen]
    exact hgainD
  have hB : (rollingMean period (lossSeries closes))[i] = some 0 := by
    rw [← List.getD_eq_getElem _ none hBlen]
    exact hlossD
  simp only [calculate_rsi, List.getElem_zipWith, hA, hB]
  simp [PVal.pdiv, hgmean, PVal.padd, PVal.psub, PVal.pneg]

/-- C8 (witness): on the strictly increasing closes 1,2,3,4 with period 2,
at position 2 the rolling average loss is 0 and the RSI is exactly 100. -/
theorem rsi_saturates_at_100_witness :
    (rollingMean 2 (lossSeries [1, 2, 3, 4])).getD 2 none = some 0 ∧
    (calculate_rsi [1, 2, 3, 4] 2).getD 2 PVal.nan = PVal.fin 100 :=
  rsi_saturates_at_100 [1, 2, 3, 4] 2 2 (by norm_num [List.chain'_cons])
    (by omega) (by omega) (by omega) (by with_unfolding_all decide)

/-- The standard normal density is everywhere positive. -/
lemma normPdf_pos (x : ℝ) : 0 < normPdf x := by
  unfold normPdf
  have h2pi : (0 : ℝ) < 2 * Real.pi := by positivity
  positivity

/-- C9: the Greeks bundle does not depend on the option_price argument. -/
theorem greeks_independent_of_option_price :
    ∀ (p₁ p₂ stock_price strike time_to_expiry volatility risk_free : ℝ),
      calculate_greeks p₁ stock_price strike time_to_expiry volatility risk_free =
        calculate_greeks p₂ stock_price strike time_to_expiry volatility risk_free :=
  fun _ _ _ _ _ _ _ => rfl

/-- C7 (counterexample): at volatility -1 (vol <= 0) with time to expiry 1,
stock 1, strike 1, rate 0 the Python body raises no exception, so
calculate_greeks returns the computed bundle, whose vega is strictly
positive; the bundle is not the zero-filled one the claim requires. -/
theorem greeks_negative_vol_counterexample :
    calculate_greeks 5 1 1 1 (-1) 0 ≠ zeroGreeks := by
  intro hcontra
  have hv : (calculate_greeks 5 1 1 1 (-1) 0).vega = 0 := by
    rw [hcontra]
    rfl
  have hpos : 0 < (calculate_greeks 5 1 1 1 (-1) 0).vega := by
    unfold calculate_greeks calculate_greeks_body
    rw [if_neg (by norm_num), if_neg (by norm_num), if_neg (by norm_num),
      if_neg (by rw [Real.sqrt_one]; norm_num)]
    simp only [Option.getD_some]
    rw [Real.sqrt_one]
    have hpdf := normPdf_pos ((Real.log (1 / 1) + (0 + (-1 : ℝ) ^ 2 / 2) * 1) / (-1 * 1))
    calc (0:ℝ) < normPdf ((Real.log (1 / 1) + (0 + (-1 : ℝ) ^ 2 / 2) * 1) / (-1 * 1)) * (1 / 100) :=
          mul_pos hpdf (by norm_num)
      _ = 1 * 1 * normPdf ((Real.log (1 / 1) + (0 + (-1 : ℝ) ^ 2 / 2) * 1) / (-1 * 1)) * (1 / 100) := by
          ring
  exact absurd hv (ne_of_gt hpos)

/-- C7 (amended): calculate_greeks returns the zero-filled bundle whenever
volatility = 0 or time_to_expiry <= 0 (the cases where the Black-Scholes
body raises and the except branch fires); for negative volatility with
positive time to expiry no exception occurs and a generally nonzero bundle
is returned. -/
theorem greeks_zero_bundle_on_zero_vol_or_nonpos_tte
    (p stock_price strike time_to_expiry volatility risk_free : ℝ)
    (h : volatility = 0 ∨ time_to_expiry ≤ 0) :
    calculate_greeks p stock_price strike time_to_expiry volatility risk_free =
      zeroGreeks := by
  unfold calculate_greeks calculate_greeks_body
  rcases h with h | h
  · subst h
    by_cases h1 : time_to_expiry < 0
    · simp [h1]
    · by_cases h2 : strike = 0
      · simp [h1, h2]
      · by_cases h3 : stock_price / strike ≤ 0
        · simp [h1, h2, h3]
        · simp [h1, h2, h3]
  · by_cases h1 : time_to_expiry < 0
    · simp [h1]
    · have h0 : time_to_expiry = 0 := le_antisymm h (not_lt.mp h1)
      subst h0
      by_cases h2 : strike = 0
      · simp [h2]
      · by_cases h3 : stock_price / strike ≤ 0
        · simp [h2, h3]
        · simp [h2, h3]

/-- C7 (witness): zero volatility yields the zero-filled bundle. -/
theorem greeks_zero_bundle_witness :
    calculate_greeks 5 100 90 1 0 (6/100) = zeroGreeks :=
  greeks_zero_bundle_on_zero_vol_or_nonpos_tte 5 100 90 1 0 (6/100) (Or.inl rfl)



/-- C4 (counterexample): on the single-asset returns matrix [[0.01, 0.01]]
with weight vector [1] the annualized volatility is 0, and
calculate_portfolio_metrics performs the Sharpe division anyway: the
sharpe_ratio entry is the IEEE quotient +infinity, not an explicit
error/undefined-metric signal. -/
theorem sharpe_not_signalled_counterexample :
    calculate_portfolio_metrics [[1/100, 1/100]] [1] =
      [("expected_return", RVal.fin ((63/25 : ℚ) : ℝ)),
       ("volatility", RVal.fin 0),
       ("sharpe_ratio", RVal.pinf)] := by
  have hvar : portfolio_variance [[1/100, 1/100]] [1] = 0 := by
    with_unfolding_all decide
  have hret : portfolio_return [[1/100, 1/100]] [1] = 63/25 := by
    with_unfolding_all decide
  unfold calculate_portfolio_metrics npSqrt npDivFin
  rw [hvar, hret]
  norm_num [risk_free_rate]



/-- C4 (amended): whenever the computed annualized portfolio variance is 0
(so the volatility is 0) and the expected return exceeds the risk-free
rate, calculate_portfolio_metrics performs the division regardless and
reports the IEEE quotient +infinity as the Sharpe ratio; no explicit
error or undefined-metric signal is produced. -/
theorem sharpe_division_unguarded (cols : List (List ℚ)) (weights : List ℚ)
    (hvar : portfolio_variance cols weights = 0)
    (hret : risk_free_rate < portfolio_return cols weights) :
    calculate_portfolio_metrics cols weights =
      [("expected_return", RVal.fin ((portfolio_return cols weights : ℚ) : ℝ)),
       ("volatility", RVal.fin 0),
       ("sharpe_ratio", RVal.pinf)] := by
  have hpos : (0 : ℝ) < ((portfolio_return cols weights - risk_free_rate : ℚ) : ℝ) := by
    have h := sub_pos.mpr hret
    exact_mod_cast h
  unfold calculate_portfolio_metrics npSqrt npDivFin
  rw [hvar]
  rw [if_neg (lt_irrefl (0 : ℚ))]
  norm_num [if_pos hpos]
  intro hcon
  exact absurd hret (not_lt.mpr hcon)

/-- C4 (witness for the amended theorem): the amended theorem applied to the
constant single-asset matrix with weight 1. -/
theorem sharpe_division_unguarded_witness :
    calculate_portfolio_metrics [[1/100, 1/100]] [1] =
      [("expected_return", RVal.fin ((portfolio_return [[1/100, 1/100]] [1] : ℚ) : ℝ)),
       ("volatility", RVal.fin 0),
       ("sharpe_ratio", RVal.pinf)] :=
  sharpe_division_unguarded [[1/100, 1/100]] [1]
    (by with_unfolding_all decide) (by with_unfolding_all decide)

end CosmicFin
